import Mathlib

/-!
Verification development for the cross-exchange perpetuals dashboard
(`src/App.tsx`).  The numeric model is a shallow embedding of JavaScript
numbers: finite values are exact rationals, and the non-finite values
`NaN`, `+Infinity`, `-Infinity` are explicit constructors.  Nullable
fields (`number | null` in the source) are `Option JSNum`, with `none`
standing for `null`/`undefined`.  Every definition mirrors a function of
the source file; the mirrored lines are cited in the doc comments.
-/

/-- Model of a JavaScript `number`: `NaN`, the two infinities, or an exact
finite value (idealised as a rational, ignoring rounding of IEEE doubles). -/
inductive JSNum where
  | nan : JSNum
  | posInf : JSNum
  | negInf : JSNum
  | num : ℚ → JSNum
deriving DecidableEq, Repr

/-- Model of `Number.isFinite(x)` for a nullable value: `Number.isFinite(null)`
is `false`, as is `Number.isFinite` of `NaN` or of either infinity. -/
def jsFinite : Option JSNum → Bool
  | some (JSNum.num _) => true
  | _ => false

/-- Model of `Number.isFinite(x)` for a non-null `number`. -/
def jsFiniteN : JSNum → Bool
  | JSNum.num _ => true
  | _ => false

/-- JavaScript truthiness of a nullable number: `null`, `undefined`, `NaN`
and `0` are falsy; every other number (including the infinities) is truthy. -/
def truthy : Option JSNum → Bool
  | none => false
  | some JSNum.nan => false
  | some JSNum.posInf => true
  | some JSNum.negInf => true
  | some (JSNum.num q) => decide (q ≠ 0)

/-- JavaScript subtraction `a - b` on numbers, with the IEEE rules for the
non-finite values (`NaN` absorbs, `Inf - Inf = NaN`, etc.). -/
def jsSub : JSNum → JSNum → JSNum
  | JSNum.nan, _ => JSNum.nan
  | _, JSNum.nan => JSNum.nan
  | JSNum.posInf, JSNum.posInf => JSNum.nan
  | JSNum.posInf, _ => JSNum.posInf
  | JSNum.negInf, JSNum.negInf => JSNum.nan
  | JSNum.negInf, _ => JSNum.negInf
  | JSNum.num _, JSNum.posInf => JSNum.negInf
  | JSNum.num _, JSNum.negInf => JSNum.posInf
  | JSNum.num a, JSNum.num b => JSNum.num (a - b)

/-- Model of `String.prototype.toUpperCase` (ASCII range; the source only
handles exchange symbols, which are ASCII).  Implemented on the character
list so that concrete instances evaluate inside the kernel. -/
def jsToUpper (s : String) : String := String.mk (s.data.map Char.toUpper)

/-- A character matched by the regex class `[A-Z0-9]`. -/
def isUpperAlnum (c : Char) : Bool :=
  (decide ('A' ≤ c) && decide (c ≤ 'Z')) || (decide ('0' ≤ c) && decide (c ≤ '9'))

/-- Model of the test `/^[A-Z0-9]+USDT$/.test(u)`: the string is a nonempty
run of `[A-Z0-9]` followed by the literal `"USDT"`. -/
def usdtPattern (u : List Char) : Bool :=
  match u.reverse with
  | 'T' :: 'D' :: 'S' :: 'U' :: rest => !rest.isEmpty && rest.reverse.all isUpperAlnum
  | _ => false

/-- `isUsdtTicker` (App.tsx lines 80-84): applies the USDT-quote regex to the
upper-cased ticker. -/
def isUsdtTicker (ticker : String) : Bool :=
  usdtPattern (jsToUpper ticker).data

/-- `String.prototype.split` with a one-character separator, as used by
`instId.split("-")`; structurally recursive model of the JavaScript split
(so `"" ↦ [""]`, `"A-" ↦ ["A", ""]`, `"A--B" ↦ ["A", "", "B"]`). -/
def charSplit (sep : Char) : List Char → List (List Char)
  | [] => [[]]
  | c :: cs =>
    match charSplit sep cs with
    | [] => [[]]
    | g :: gs => if c = sep then [] :: g :: gs else (c :: g) :: gs

/-- `okxInstIdToCanonical` (App.tsx lines 153-164): maps an OKX instrument id
such as `"BTC-USDT-SWAP"` to the canonical ticker `"BTCUSDT"`.  The argument
is `Option String` because the source accepts `string | null | undefined`;
`some ""` is rejected by the same falsiness check (`if (!instId) return null`)
that rejects `null`. -/
def okxInstIdToCanonical (instId : Option String) : Option String :=
  match instId with
  | none => none
  | some s =>
    if s.data.isEmpty then none
    else
      let upper := s.data.map Char.toUpper
      if upper.contains '/' || upper.contains ':' then none
      else
        let parts := charSplit '-' upper
        if parts.length < 2 then none
        else
          let base := parts.headI
          let quote := parts.tail.headI
          if base.isEmpty || decide (quote ≠ "USDT".data) then none
          else some (String.mk (base ++ quote))

/-- The per-instrument mutable record `Row` (App.tsx lines 48-73). -/
@[ext]
structure Row where
  ticker : String
  bnPrice : Option JSNum
  okxPrice : Option JSNum
  bnFunding : Option JSNum
  okxFunding : Option JSNum
  bnVol24h : Option JSNum
  okxVol24h : Option JSNum
  okxBaseVol24h : Option JSNum
  bnNextFundingTime : Option JSNum
  okxNextFundingTime : Option JSNum
  bnIntervalHours : Option JSNum
  okxIntervalHours : Option JSNum
deriving DecidableEq, Repr

/-- The fresh record created by `getOrInitRow` (App.tsx lines 166-185): every
field `null` except the ticker and the Binance interval default of 8 hours. -/
def freshRow (ticker : String) : Row where
  ticker := ticker
  bnPrice := none
  okxPrice := none
  bnFunding := none
  okxFunding := none
  bnVol24h := none
  okxVol24h := none
  okxBaseVol24h := none
  bnNextFundingTime := none
  okxNextFundingTime := none
  bnIntervalHours := some (JSNum.num 8)
  okxIntervalHours := none

/-- `inferIntervalHours` (App.tsx lines 187-194).  Note the guard
`if (!prevNext || !next) return null` uses JavaScript truthiness, so a zero
or `NaN` timestamp is rejected exactly like `null`. -/
def inferIntervalHours (prevNext next : Option JSNum) : Option ℚ :=
  if truthy prevNext && truthy next then
    match prevNext, next with
    | some a, some b =>
      match jsSub b a with
      | JSNum.num delta =>
        if delta ≤ 0 then none
        else if delta < 30 * 60 * 1000 then none
        else if delta > 24 * 60 * 60 * 1000 then none
        else some (delta / (60 * 60 * 1000))
      | _ => none
    | _, _ => none
  else none

/-- `cmpNullableNumber` (App.tsx lines 196-203): non-finite values compare
equal to each other and after every finite value, independently of the
direction multiplier; two finite values compare by their difference times
the direction multiplier. -/
def cmpNullableNumber (a b : Option JSNum) (dirMul : ℚ) : ℚ :=
  match a, b with
  | some (JSNum.num x), some (JSNum.num y) => (x - y) * dirMul
  | some (JSNum.num _), _ => -1
  | _, some (JSNum.num _) => 1
  | _, _ => 0

/-- `priceDiffAbsFrac` (App.tsx lines 205-209): `Math.abs((okx - bn) / bn)`,
guarded by finiteness of both prices and `bn ≠ 0`. -/
def priceDiffAbsFrac (row : Row) : Option JSNum :=
  match row.bnPrice, row.okxPrice with
  | some (JSNum.num a), some (JSNum.num b) =>
    if a = 0 then none else some (JSNum.num |(b - a) / a|)
  | _, _ => none

/-- `fundingDiffAbs` (App.tsx lines 211-214). -/
def fundingDiffAbs (row : Row) : Option JSNum :=
  match row.bnFunding, row.okxFunding with
  | some (JSNum.num a), some (JSNum.num b) => some (JSNum.num |b - a|)
  | _, _ => none

/-- `convertOkxBaseVolToUsdt` (App.tsx lines 216-219): the product of base
volume and price when both are finite, otherwise `null`. -/
def convertOkxBaseVolToUsdt (baseVol px : Option JSNum) : Option JSNum :=
  match baseVol, px with
  | some (JSNum.num b), some (JSNum.num p) => some (JSNum.num (b * p))
  | _, _ => none

/-- The sortable numeric columns (`SortKey`, App.tsx lines 36-44). -/
inductive SortKey where
  | bnPrice | okxPrice | priceDiff | bnFunding | okxFunding | fundingDiff
  | bnVol24h | okxVol24h
deriving DecidableEq, Repr

/-- Sort direction (`"asc" | "desc"`, App.tsx line 46). -/
inductive SortDir where
  | asc | desc
deriving DecidableEq, Repr

/-- The direction multiplier `sort.dir === "asc" ? 1 : -1` (App.tsx line 899). -/
def dirMulOf : SortDir → ℚ
  | SortDir.asc => 1
  | SortDir.desc => -1

/-- The value a record contributes under each sort key, as dispatched by the
sort comparator of the snapshot (App.tsx lines 901-911). -/
def sortValue : SortKey → Row → Option JSNum
  | SortKey.bnPrice, r => r.bnPrice
  | SortKey.okxPrice, r => r.okxPrice
  | SortKey.priceDiff, r => priceDiffAbsFrac r
  | SortKey.bnFunding, r => r.bnFunding
  | SortKey.okxFunding, r => r.okxFunding
  | SortKey.fundingDiff, r => fundingDiffAbs r
  | SortKey.bnVol24h, r => r.bnVol24h
  | SortKey.okxVol24h, r => r.okxVol24h

/-- The snapshot sort comparator (App.tsx lines 901-911): dispatch on the key
and compare with `cmpNullableNumber`. -/
def rowCmp (key : SortKey) (dir : SortDir) (a b : Row) : ℚ :=
  cmpNullableNumber (sortValue key a) (sortValue key b) (dirMulOf dir)

/-- Insertion of an element into a list according to a numeric comparator;
building block of the comparator-driven stable sort used for the snapshot. -/
def insertSorted {α : Type} (cmp : α → α → ℚ) (x : α) : List α → List α
  | [] => [x]
  | y :: ys => if cmp x y ≤ 0 then x :: y :: ys else y :: insertSorted cmp x ys

/-- Comparator-driven sort modelling `filtered.slice().sort(...)`
(App.tsx line 901). -/
def sortRows {α : Type} (cmp : α → α → ℚ) (l : List α) : List α :=
  l.foldr (insertSorted cmp) []

/-- The Instrument Store: canonical ticker to record, `none` when no record
exists (models the `Map<string, Row>` of `rowsRef`, App.tsx line 276). -/
abbrev StoreMap := String → Option Row

/-- Point update of the store (models `map.set(ticker, row)`). -/
def storeSet (m : StoreMap) (t : String) (r : Row) : StoreMap :=
  fun u => if u = t then some r else m u

/-- Test `if (set.size && !set.has(ticker)) continue` (used by every adapter):
the filter passes when the set is empty or contains the ticker. -/
def setPass (s : Finset String) (t : String) : Bool :=
  decide (s.card = 0) || decide (t ∈ s)

/-- Lookup in the OKX instId-to-ticker table (a JavaScript `Map` built with
unique keys, App.tsx lines 609-621); modelled as an association list. -/
def mapGet (m : List (String × String)) (k : String) : Option String :=
  (m.find? (fun p => p.1 = k)).map (fun p => p.2)

/-- Common ticker computation of the OKX REST adapters (App.tsx lines 781-783
and 834-837): `mapped ?? okxInstIdToCanonical(instId)` after the guard
`if (map.size && !mapped) continue`. -/
def okxItemTicker (okxMap : List (String × String)) (instIdRaw : Option String) :
    Option String :=
  let instId := jsToUpper (instIdRaw.getD "")
  let mapped := mapGet okxMap instId
  if okxMap.length ≠ 0 && mapped.isNone then none
  else
    match mapped with
    | some t => some t
    | none => okxInstIdToCanonical (some instId)

/-- One item of the Binance 24h REST payload (App.tsx lines 494-505).
`symbol = none` models an absent/falsy symbol; `quoteVolume = none` models
`undefined` (the source then falls back to `Number(x?.volume)`, whose value
`volume` holds, `NaN` when absent). -/
structure Bn24hItem where
  symbol : Option String
  quoteVolume : Option JSNum
  volume : JSNum

/-- One item of the OKX funding REST payload (App.tsx lines 775-780).
`fundingRate = none` models `undefined` (the skip condition); for the two
timestamps, `none` models `undefined`/`null` and `some v` the value
`Number(...)` produces. -/
structure OkxFundingItem where
  instId : Option String
  fundingRate : Option JSNum
  nextFundingTime : Option JSNum
  fundingTime : Option JSNum

/-- One item of the OKX 24h tickers payload (App.tsx lines 833-849).
`volCcy24h` and `last` hold the values of `Number(x?.volCcy24h)` and
`Number(x?.last)` (so `NaN` when absent). -/
structure Okx24hItem where
  instId : Option String
  volCcy24h : JSNum
  last : JSNum

/-- One item of the Binance funding-info payload (App.tsx lines 552-562).
`fundingIntervalHours = none` models `undefined`. -/
structure BnFundingInfoItem where
  symbol : Option String
  fundingIntervalHours : Option JSNum

/-- Skip logic and canonical ticker of one Binance 24h item
(App.tsx lines 495-501): falsy symbol, non-USDT ticker, and the two
universe filters all make the item a no-op. -/
def bn24hKey (bnSet common : Finset String) (i : Bn24hItem) : Option String :=
  match i.symbol with
  | none => none
  | some s =>
    if s = "" then none
    else
      let ticker := jsToUpper s
      if isUsdtTicker ticker = false then none
      else if setPass bnSet ticker = false then none
      else if setPass common ticker = false then none
      else some ticker

/-- The volume of a Binance 24h item:
`qv !== undefined ? Number(qv) : Number(x?.volume)` (App.tsx line 505). -/
def bn24hVol (i : Bn24hItem) : JSNum :=
  match i.quoteVolume with
  | some q => q
  | none => i.volume

/-- Record mutation of one Binance 24h item (App.tsx line 508):
`row.bnVol24h = Number.isFinite(v) ? v : row.bnVol24h`. -/
def bn24hUpd (i : Bn24hItem) (r : Row) : Row :=
  { r with bnVol24h := if jsFiniteN (bn24hVol i) then some (bn24hVol i) else r.bnVol24h }

/-- Skip logic and canonical ticker of one OKX funding item
(App.tsx lines 776-787). -/
def okxFundingKey (okxMap : List (String × String)) (okxSet common : Finset String)
    (i : OkxFundingItem) : Option String :=
  match okxItemTicker okxMap i.instId with
  | none => none
  | some t =>
    if t = "" then none
    else if i.fundingRate.isNone then none
    else if isUsdtTicker t = false then none
    else if setPass okxSet t = false then none
    else if setPass common t = false then none
    else some t

/-- The delta-inference fallback branch of the OKX funding adapter
(App.tsx lines 800-805): infer against the stored next-settlement timestamp,
then store the new one. -/
def okxInferApply (b : ℚ) (r : Row) : Row :=
  match inferIntervalHours r.okxNextFundingTime (some (JSNum.num b)) with
  | some h =>
    { r with okxIntervalHours := some (JSNum.num h),
             okxNextFundingTime := some (JSNum.num b) }
  | none => { r with okxNextFundingTime := some (JSNum.num b) }

/-- Record mutation of one OKX funding item (App.tsx lines 789-805): store the
funding rate; when `fundingTime` and `nextFundingTime` are both finite with
`next > fundingTime`, take the exact interval (only when it lies in
`(0, 24]` hours), else fall back to delta-inference when `nextFundingTime`
is finite.  (`Number.isFinite(hrs)` always holds in the rational model.) -/
def okxFundingRowUpdate (fr : JSNum) (ft nt : Option JSNum) (r : Row) : Row :=
  let r0 := { r with okxFunding := some fr }
  match ft, nt with
  | some (JSNum.num a), some (JSNum.num b) =>
    if a < b then
      let hrs := (b - a) / (60 * 60 * 1000)
      let r1 :=
        if 0 < hrs ∧ hrs ≤ 24 then { r0 with okxIntervalHours := some (JSNum.num hrs) }
        else r0
      { r1 with okxNextFundingTime := some (JSNum.num b) }
    else okxInferApply b r0
  | _, some (JSNum.num b) => okxInferApply b r0
  | _, _ => r0

/-- Record mutation of one OKX funding item, reading the fields off the item
(the `fundingRate.getD` value is irrelevant: `okxFundingKey` already skipped
items with an `undefined` funding rate). -/
def okxFundingUpd (i : OkxFundingItem) (r : Row) : Row :=
  okxFundingRowUpdate (i.fundingRate.getD JSNum.nan) i.fundingTime i.nextFundingTime r

/-- Skip logic and canonical ticker of one OKX 24h item
(App.tsx lines 834-841). -/
def okx24hKey (okxMap : List (String × String)) (okxSet common : Finset String)
    (i : Okx24hItem) : Option String :=
  match okxItemTicker okxMap i.instId with
  | none => none
  | some t =>
    if t = "" then none
    else if isUsdtTicker t = false then none
    else if setPass okxSet t = false then none
    else if setPass common t = false then none
    else some t

/-- The price used by the OKX 24h conversion (App.tsx lines 853-857): the
stored mark price when finite, else the payload's last price when finite,
else `null`. -/
def okxPxChoice (p : Option JSNum) (i : Okx24hItem) : Option JSNum :=
  if jsFinite p then p else if jsFiniteN i.last then some i.last else none

/-- Record mutation of one OKX 24h item (App.tsx lines 843-861): store the
base volume when finite, and convert to USDT using the stored mark price,
falling back to the payload's last price. -/
def okx24hUpd (i : Okx24hItem) (r : Row) : Row :=
  match i.volCcy24h with
  | JSNum.num bv =>
    let r1 := { r with okxBaseVol24h := some (JSNum.num bv) }
    let px := okxPxChoice r1.okxPrice i
    match convertOkxBaseVolToUsdt (some (JSNum.num bv)) px with
    | some v => { r1 with okxVol24h := some v }
    | none => r1
  | _ => r

/-- Record mutation of one OKX mark-price websocket message
(App.tsx lines 721-726): store the mark price and re-convert a previously
stored base volume immediately. -/
def okxMarkRowUpdate (markPx : JSNum) (r : Row) : Row :=
  let r1 := { r with okxPrice := some markPx }
  match convertOkxBaseVolToUsdt r1.okxBaseVol24h r1.okxPrice with
  | some v => { r1 with okxVol24h := some v }
  | none => r1

/-- Generic per-item step of a poll adapter: compute the ticker (with all the
skip conditions folded into `keyOf`), then `getOrInitRow` and mutate. -/
def stepFeed {ι : Type} (keyOf : ι → Option String) (upd : ι → Row → Row)
    (m : StoreMap) (i : ι) : StoreMap :=
  match keyOf i with
  | none => m
  | some t => storeSet m t (upd i ((m t).getD (freshRow t)))

/-- Ingestion of a whole poll payload: fold the per-item step over the batch. -/
def runFeed {ι : Type} (keyOf : ι → Option String) (upd : ι → Row → Row)
    (p : List ι) (m : StoreMap) : StoreMap :=
  p.foldl (stepFeed keyOf upd) m

/-- `fetchBinance24h` applied to one payload (App.tsx lines 480-520),
restricted to its Instrument Store effect. -/
def fetchBinance24h (bnSet common : Finset String) (p : List Bn24hItem)
    (m : StoreMap) : StoreMap :=
  runFeed (bn24hKey bnSet common) bn24hUpd p m

/-- `fetchOkxFunding` applied to one payload (App.tsx lines 761-817),
restricted to its Instrument Store effect. -/
def fetchOkxFunding (okxMap : List (String × String)) (okxSet common : Finset String)
    (p : List OkxFundingItem) (m : StoreMap) : StoreMap :=
  runFeed (okxFundingKey okxMap okxSet common) okxFundingUpd p m

/-- `fetchOkx24h` applied to one payload (App.tsx lines 819-873),
restricted to its Instrument Store effect. -/
def fetchOkx24h (okxMap : List (String × String)) (okxSet common : Finset String)
    (p : List Okx24hItem) (m : StoreMap) : StoreMap :=
  runFeed (okx24hKey okxMap okxSet common) okx24hUpd p m

/-- The shared mutable state of the engine: the Instrument Store, the two
venue universes, the derived common universe, the Binance funding-interval
override table, and the dirty flag (App.tsx lines 276-307). -/
structure Engine where
  rows : StoreMap
  bnSet : Finset String
  okxSet : Finset String
  common : Finset String
  bnOverrides : String → Option ℚ
  dirty : Bool

/-- `recomputeCommonUniverse` (App.tsx lines 285-304): when both venue sets
are non-empty, the common universe becomes their intersection, every record
outside it is pruned, and the store is marked dirty; otherwise the common
universe is reset to empty and the store is left untouched. -/
def recomputeCommonUniverse (s : Engine) : Engine :=
  if 0 < s.bnSet.card ∧ 0 < s.okxSet.card then
    let common := s.bnSet ∩ s.okxSet
    { s with common := common,
             rows := fun t => if t ∈ common then s.rows t else none,
             dirty := true }
  else { s with common := ∅ }

/-- The per-ticker filter of `fetchBinanceFundingInfo` (App.tsx lines 557-559
and 569-571), identical at build time and at apply time. -/
def bnFundingInfoPass (s : Engine) (t : String) : Bool :=
  isUsdtTicker t && setPass s.bnSet t && setPass s.common t

/-- One item of the override-table construction of `fetchBinanceFundingInfo`
(App.tsx lines 551-562): keep items with a present symbol and interval,
passing the universe filters, whose hours are finite with `0 < h ≤ 24`. -/
def bnOverrideStep (s : Engine) (ov : String → Option ℚ) (i : BnFundingInfoItem) :
    String → Option ℚ :=
  match i.symbol with
  | none => ov
  | some sym =>
    if sym = "" then ov
    else
      match i.fundingIntervalHours with
      | none => ov
      | some hval =>
        let ticker := jsToUpper sym
        if bnFundingInfoPass s ticker = false then ov
        else
          match hval with
          | JSNum.num h =>
            if 0 < h ∧ h ≤ 24 then fun t => if t = ticker then some h else ov t
            else ov
          | _ => ov

/-- Folding `bnOverrideStep` over the whole funding-info payload, starting
from the empty table (`new Map()`). -/
def buildBnOverrides (s : Engine) (p : List BnFundingInfoItem) :
    String → Option ℚ :=
  p.foldl (bnOverrideStep s) (fun _ => none)

/-- The nullish chain `overrides.get(ticker) ?? row.bnIntervalHours ?? 8`
(App.tsx line 572). -/
def bnIntervalChain (ovt : Option ℚ) (cur : Option JSNum) : Option JSNum :=
  match ovt with
  | some h => some (JSNum.num h)
  | none =>
    match cur with
    | some x => some x
    | none => some (JSNum.num 8)

/-- `fetchBinanceFundingInfo` applied to one payload (App.tsx lines 539-579):
replace the override table, then apply
`row.bnIntervalHours = overrides.get(ticker) ?? row.bnIntervalHours ?? 8`
to every stored row passing the filters, and mark the store dirty. -/
def fetchBinanceFundingInfo (p : List BnFundingInfoItem) (s : Engine) : Engine :=
  let ov := buildBnOverrides s p
  { s with
    bnOverrides := ov,
    rows := fun t =>
      match s.rows t with
      | none => none
      | some r =>
        if bnFundingInfoPass s t then
          some { r with bnIntervalHours := bnIntervalChain (ov t) r.bnIntervalHours }
        else some r,
    dirty := true }

/-- Finite value carried by a nullable number (0 for the non-finite cases;
only read under a `jsFinite` guard). -/
def finVal : Option JSNum → ℚ
  | some (JSNum.num q) => q
  | _ => 0

/-- Concrete record for the claim C1 scenario: Binance 100, OKX 101. -/
def c1Row : Row :=
  { freshRow "BTCUSDT" with bnPrice := some (JSNum.num 100), okxPrice := some (JSNum.num 101) }

/-- Concrete record with negative prices, separating `|b - a| / a` from the
implemented `|(b - a) / a|`. -/
def c1NegRow : Row :=
  { freshRow "XUSDT" with bnPrice := some (JSNum.num (-100)), okxPrice := some (JSNum.num (-101)) }

/-- Concrete engine state with two stored records and overlapping universes. -/
def c2Engine : Engine where
  rows := fun t =>
    if t = "AUSDT" then some (freshRow "AUSDT")
    else if t = "BUSDT" then some (freshRow "BUSDT")
    else none
  bnSet := {"AUSDT", "BUSDT"}
  okxSet := {"AUSDT"}
  common := ∅
  bnOverrides := fun _ => none
  dirty := false

/-- Concrete engine state with an empty OKX universe. -/
def c2EngineEmpty : Engine where
  rows := fun t => if t = "AUSDT" then some (freshRow "AUSDT") else none
  bnSet := {"AUSDT"}
  okxSet := ∅
  common := ∅
  bnOverrides := fun _ => none
  dirty := false

/-- Concrete record holding a base volume, awaiting a mark price. -/
def c4MarkRow : Row :=
  { freshRow "BTCUSDT" with okxBaseVol24h := some (JSNum.num 2) }

/-- Concrete OKX 24h item of the claim C4 scenario: base volume 56.78,
last price 100. -/
def c4Item : Okx24hItem where
  instId := some "BTC-USDT-SWAP"
  volCcy24h := JSNum.num (5678 / 100)
  last := JSNum.num 100

/-- Concrete record with a stored OKX mark price of 100. -/
def c4PriceRow : Row :=
  { freshRow "BTCUSDT" with okxPrice := some (JSNum.num 100) }

/-- Concrete engine state holding one fresh record for ticker `"XUSDT"`. -/
def c5Engine : Engine where
  rows := fun t => if t = "XUSDT" then some (freshRow "XUSDT") else none
  bnSet := ∅
  okxSet := ∅
  common := ∅
  bnOverrides := fun _ => none
  dirty := false

/-- Concrete funding-info item overriding `"XUSDT"` to a 1-hour interval. -/
def c5Item : BnFundingInfoItem where
  symbol := some "XUSDT"
  fundingIntervalHours := some (JSNum.num 1)

/-- Concrete record with a finite Binance price. -/
def c6FinRow : Row :=
  { freshRow "AUSDT" with bnPrice := some (JSNum.num 1) }

/-- Concrete record with a `NaN` Binance price. -/
def c6NanRow : Row :=
  { freshRow "BUSDT" with bnPrice := some JSNum.nan }

/-- Concrete record with a finite Binance price of 2. -/
def c6Row2 : Row :=
  { freshRow "CUSDT" with bnPrice := some (JSNum.num 2) }

/-- Concrete record with an 8-hour OKX interval already stored. -/
def c8Row : Row :=
  { freshRow "BTCUSDT" with okxIntervalHours := some (JSNum.num 8) }

/-- First item of the claim C9 funding payload: native id `"BTC-USDT"`,
next settlement at 16h (epoch milliseconds). -/
def c9Item1 : OkxFundingItem where
  instId := some "BTC-USDT"
  fundingRate := some (JSNum.num 0)
  nextFundingTime := some (JSNum.num 57600000)
  fundingTime := none

/-- Second item of the claim C9 funding payload: native id `"BTC-USDT-SWAP"`
(the same canonical ticker `"BTCUSDT"`), next settlement at 8h. -/
def c9Item2 : OkxFundingItem where
  instId := some "BTC-USDT-SWAP"
  fundingRate := some (JSNum.num 0)
  nextFundingTime := some (JSNum.num 28800000)
  fundingTime := none

/-- The empty Instrument Store. -/
def c9Store : StoreMap := fun _ => none

/-- Concrete Binance 24h item used to instantiate the idempotence theorem. -/
def c9Bn24hItem : Bn24hItem where
  symbol := some "XUSDT"
  quoteVolume := some (JSNum.num 5)
  volume := JSNum.nan

/-- Concrete OKX 24h item used to instantiate the idempotence theorem. -/
def c9Okx24hItem : Okx24hItem where
  instId := some "BTC-USDT-SWAP"
  volCcy24h := JSNum.num 2
  last := JSNum.num 3

/-- Per-ticker view of one adapter step: the effect of item `i` on the store
entry of ticker `t` (a no-op unless `i` targets `t`). -/
def effAt {ι : Type} (keyOf : ι → Option String) (upd : ι → Row → Row) (t : String)
    (or : Option Row) (i : ι) : Option Row :=
  match keyOf i with
  | none => or
  | some u => if u = t then some (upd i (or.getD (freshRow t))) else or

/-- The items of a payload that target ticker `t`. -/
def touchers {ι : Type} (keyOf : ι → Option String) (t : String) (p : List ι) : List ι :=
  p.filter (fun i => decide (keyOf i = some t))

/-- Sequential application of the per-item record mutations to one record. -/
def applyRowList {ι : Type} (upd : ι → Row → Row) (l : List ι) (r : Row) : Row :=
  l.foldl (fun r i => upd i r) r

/-- The per-item effect of a Binance 24h item on the `bnVol24h` field alone. -/
def bnVolStep (i : Bn24hItem) (x : Option JSNum) : Option JSNum :=
  if jsFiniteN (bn24hVol i) then some (bn24hVol i) else x

/-- The per-item effect of an OKX 24h item on the `okxBaseVol24h` field alone. -/
def okxBaseStep (i : Okx24hItem) (x : Option JSNum) : Option JSNum :=
  match i.volCcy24h with
  | JSNum.num bv => some (JSNum.num bv)
  | _ => x

/-- The per-item effect of an OKX 24h item on the `okxVol24h` field alone,
for a fixed stored mark price `p`. -/
def okxVolStep (p : Option JSNum) (i : Okx24hItem) (v : Option JSNum) : Option JSNum :=
  match i.volCcy24h with
  | JSNum.num bv =>
    match convertOkxBaseVolToUsdt (some (JSNum.num bv)) (okxPxChoice p i) with
    | some w => some w
    | none => v
  | _ => v

/-- Store contents after the first ingestion of the claim C9 payload:
funding 0, next settlement 16h, no interval inferred yet. -/
def c9RowB : Row :=
  { freshRow "BTCUSDT" with okxFunding := some (JSNum.num 0),
                            okxNextFundingTime := some (JSNum.num 28800000) }

/-- Intermediate record of the second ingestion of the claim C9 payload:
the first item now sees the 8h-later timestamp and infers an 8-hour interval. -/
def c9RowC : Row :=
  { freshRow "BTCUSDT" with okxFunding := some (JSNum.num 0),
                            okxIntervalHours := some (JSNum.num 8),
                            okxNextFundingTime := some (JSNum.num 57600000) }

/-- Store contents after the second ingestion of the claim C9 payload: the
spuriously inferred 8-hour interval is retained. -/
def c9RowD : Row :=
  { freshRow "BTCUSDT" with okxFunding := some (JSNum.num 0),
                            okxIntervalHours := some (JSNum.num 8),
                            okxNextFundingTime := some (JSNum.num 28800000) }

/-! ## Helper lemmas -/

lemma jsFinite_iff (x : Option JSNum) :
    jsFinite x = true ↔ ∃ q : ℚ, x = some (JSNum.num q) := by
  cases x with
  | none => simp [jsFinite]
  | some v => cases v <;> simp [jsFinite]

lemma cmpNullableNumber_closed (a b : Option JSNum) (d : ℚ) :
    cmpNullableNumber a b d =
      if jsFinite a then
        (if jsFinite b then (finVal a - finVal b) * d else -1)
      else
        (if jsFinite b then 1 else 0) := by
  cases a <;> cases b <;> first
    | rfl
    | (rename_i v
       cases v <;> rfl)
    | (rename_i v w
       cases v <;> cases w <;> rfl)

lemma convertOkxBaseVolToUsdt_closed (bv px : Option JSNum) :
    convertOkxBaseVolToUsdt bv px =
      if jsFinite bv && jsFinite px then some (JSNum.num (finVal bv * finVal px))
      else none := by
  cases bv <;> cases px <;> first
    | rfl
    | (rename_i v
       cases v <;> rfl)
    | (rename_i v w
       cases v <;> cases w <;> rfl)

lemma inferIntervalHours_num (p n : ℚ) :
    inferIntervalHours (some (JSNum.num p)) (some (JSNum.num n)) =
      if p ≠ 0 ∧ n ≠ 0 ∧ 30 * 60 * 1000 ≤ n - p ∧ n - p ≤ 24 * 60 * 60 * 1000 then
        some ((n - p) / (60 * 60 * 1000))
      else none := by
  by_cases hp : p = 0
  · simp [inferIntervalHours, truthy, hp]
  · by_cases hn : n = 0
    · simp [inferIntervalHours, truthy, hp, hn]
    · have hred : inferIntervalHours (some (JSNum.num p)) (some (JSNum.num n)) =
          (if (n - p : ℚ) ≤ 0 then none
           else if (n - p : ℚ) < 30 * 60 * 1000 then none
           else if (n - p : ℚ) > 24 * 60 * 60 * 1000 then none
           else some ((n - p) / (60 * 60 * 1000))) := by
        simp [inferIntervalHours, truthy, hp, hn, jsSub]
      rw [hred]
      by_cases h1 : (n - p : ℚ) ≤ 0
      · rw [if_pos h1, if_neg]
        rintro ⟨-, -, h30, -⟩
        linarith
      · rw [if_neg h1]
        by_cases h2 : (n - p : ℚ) < 30 * 60 * 1000
        · rw [if_pos h2, if_neg]
          rintro ⟨-, -, h30, -⟩
          linarith
        · rw [if_neg h2]
          by_cases h3 : (n - p : ℚ) > 24 * 60 * 60 * 1000
          · rw [if_pos h3, if_neg]
            rintro ⟨-, -, -, h24⟩
            linarith
          · rw [if_neg h3, if_pos]
            exact ⟨hp, hn, by linarith, by linarith⟩

lemma inferIntervalHours_ne_none {prevNext next : Option JSNum}
    (h : inferIntervalHours prevNext next ≠ none) :
    ∃ p n : ℚ, prevNext = some (JSNum.num p) ∧ next = some (JSNum.num n) := by
  rcases prevNext with _ | pv
  · exact absurd (by simp [inferIntervalHours, truthy]) h
  · rcases next with _ | nv
    · refine absurd ?_ h
      simp [inferIntervalHours, truthy]
    · cases pv <;> cases nv <;> first
        | exact ⟨_, _, rfl, rfl⟩
        | (refine absurd ?_ h
           unfold inferIntervalHours
           split <;> rfl)

lemma bnIntervalChain_none (cur : Option JSNum) :
    bnIntervalChain none cur = some (cur.getD (JSNum.num 8)) := by
  cases cur <;> rfl

/-! ## Claim theorems -/

/-- C10: the nullable-number comparator is antisymmetric for every direction
multiplier — `cmp a b` and `cmp b a` are exact negatives (hence of opposite
sign or both zero), two missing/non-finite values compare equal, and no pair
is ranked before each other simultaneously. -/
theorem claim10_comparator_antisymmetry (a b : Option JSNum) (d : ℚ) :
    cmpNullableNumber a b d = -cmpNullableNumber b a d
    ∧ (jsFinite a = false → jsFinite b = false → cmpNullableNumber a b d = 0)
    ∧ ¬ (0 < cmpNullableNumber a b d ∧ 0 < cmpNullableNumber b a d) := by
  have h1 : cmpNullableNumber a b d = -cmpNullableNumber b a d := by
    rw [cmpNullableNumber_closed, cmpNullableNumber_closed]
    cases ha : jsFinite a <;> cases hb : jsFinite b
    all_goals simp
    ring
  refine ⟨h1, ?_, ?_⟩
  · intro ha hb
    rw [cmpNullableNumber_closed, ha, hb]
    simp
  · rintro ⟨hpos1, hpos2⟩
    rw [h1] at hpos1
    linarith

/-- Witness for C10 at a concrete pair of non-finite values. -/
theorem claim10_witness :
    cmpNullableNumber (some JSNum.nan) none 1 = 0 :=
  (claim10_comparator_antisymmetry (some JSNum.nan) none 1).2.1 rfl rfl

/-- C1 counterexample: for the record with Binance price −100 and OKX price
−101 the implementation returns `|(−101 − (−100)) / (−100)| = 1/100`, while
the claimed formula `|priceB − priceA| / priceA` gives `−1/100`. -/
theorem claim1_counterexample :
    priceDiffAbsFrac c1NegRow = some (JSNum.num (1 / 100))
    ∧ ((1 : ℚ) / 100) ≠ |(-101 : ℚ) - (-100)| / (-100) := by
  constructor
  · have h : ((-101 : ℚ) - (-100)) / (-100) = 1 / 100 := by norm_num
    simp only [priceDiffAbsFrac, c1NegRow, freshRow]
    rw [if_neg (by norm_num), h, abs_of_nonneg (by norm_num)]
  · norm_num

/-- C1 (amended): the derived price divergence is `|priceB − priceA| / |priceA|`
(the absolute value of the relative difference), `null` exactly when either
price is missing/non-finite or the Binance price is zero; the OKX native id
`"BTC-USDT-SWAP"` canonicalizes to `"BTCUSDT"`, and the 100/101 scenario
yields divergence 1/100. -/
theorem claim1_price_divergence (r : Row) :
    (priceDiffAbsFrac r = none ↔
      ¬ ∃ a b : ℚ, r.bnPrice = some (JSNum.num a) ∧ r.okxPrice = some (JSNum.num b) ∧ a ≠ 0)
    ∧ (∀ a b : ℚ, r.bnPrice = some (JSNum.num a) → r.okxPrice = some (JSNum.num b) → a ≠ 0 →
        priceDiffAbsFrac r = some (JSNum.num (|b - a| / |a|)))
    ∧ okxInstIdToCanonical (some "BTC-USDT-SWAP") = some "BTCUSDT"
    ∧ priceDiffAbsFrac c1Row = some (JSNum.num (1 / 100)) := by
  have hval : ∀ a b : ℚ, r.bnPrice = some (JSNum.num a) → r.okxPrice = some (JSNum.num b) →
      a ≠ 0 → priceDiffAbsFrac r = some (JSNum.num (|b - a| / |a|)) := by
    intro a b ha hb hne
    simp only [priceDiffAbsFrac, ha, hb, if_neg hne, abs_div]
  have hscn : priceDiffAbsFrac c1Row = some (JSNum.num (1 / 100)) := by
    have h : ((101 : ℚ) - 100) / 100 = 1 / 100 := by norm_num
    simp only [priceDiffAbsFrac, c1Row, freshRow]
    rw [if_neg (by norm_num), h, abs_of_nonneg (by norm_num)]
  refine ⟨⟨?_, ?_⟩, hval, by decide, hscn⟩
  · intro h hex
    obtain ⟨a, b, ha, hb, hne⟩ := hex
    rw [hval a b ha hb hne] at h
    exact Option.noConfusion h
  · intro h
    rcases hbn : r.bnPrice with _ | v
    · simp [priceDiffAbsFrac, hbn]
    · rcases hok : r.okxPrice with _ | w
      · cases v <;> simp [priceDiffAbsFrac, hbn, hok]
      · cases v with
        | num a =>
          cases w with
          | num b =>
            by_cases hz : a = 0
            · simp [priceDiffAbsFrac, hbn, hok, hz]
            · exact absurd ⟨a, b, hbn, hok, hz⟩ h
          | nan => simp [priceDiffAbsFrac, hbn, hok]
          | posInf => simp [priceDiffAbsFrac, hbn, hok]
          | negInf => simp [priceDiffAbsFrac, hbn, hok]
        | nan => simp [priceDiffAbsFrac, hbn]
        | posInf => simp [priceDiffAbsFrac, hbn]
        | negInf => simp [priceDiffAbsFrac, hbn]

/-- Witness for C1 at the 100/101 record. -/
theorem claim1_witness :
    priceDiffAbsFrac c1Row = some (JSNum.num (|101 - 100| / |(100 : ℚ)|)) :=
  (claim1_price_divergence c1Row).2.1 100 101 rfl rfl (by norm_num)

/-- C3 counterexample: the timestamps 0 and 28800000 (an 8-hour delta inside
the claimed band) are both present, yet the implementation returns `null`,
because `if (!prevNext || !next)` treats the zero timestamp as missing. -/
theorem claim3_counterexample :
    inferIntervalHours (some (JSNum.num 0)) (some (JSNum.num 28800000)) = none
    ∧ (30 * 60 * 1000 : ℚ) ≤ 28800000 - 0
    ∧ (28800000 - 0 : ℚ) ≤ 24 * 60 * 60 * 1000 :=
  ⟨by decide, by norm_num, by norm_num⟩

/-- C3 (amended): interval inference returns unknown unless both timestamps
are present, nonzero and non-`NaN` (the truthiness guard treats a zero or
`NaN` timestamp like a missing one), and the delta lies in
[30 minutes, 24 hours]; in the band it returns the delta in hours.  For
positive `t`: `inferHours(t, t + 8h) = 8`, `inferHours(t, t + 10min)` and
`inferHours(t, t − 1h)` are unknown. -/
theorem claim3_interval_inference (prevNext next : Option JSNum) :
    (∀ p n : ℚ, prevNext = some (JSNum.num p) → next = some (JSNum.num n) →
        p ≠ 0 → n ≠ 0 → 30 * 60 * 1000 ≤ n - p → n - p ≤ 24 * 60 * 60 * 1000 →
        inferIntervalHours prevNext next = some ((n - p) / (60 * 60 * 1000)))
    ∧ (inferIntervalHours prevNext next ≠ none →
        ∃ p n : ℚ, prevNext = some (JSNum.num p) ∧ next = some (JSNum.num n) ∧
          p ≠ 0 ∧ n ≠ 0 ∧ 30 * 60 * 1000 ≤ n - p ∧ n - p ≤ 24 * 60 * 60 * 1000 ∧
          inferIntervalHours prevNext next = some ((n - p) / (60 * 60 * 1000)))
    ∧ (∀ t : ℚ, 0 < t →
        inferIntervalHours (some (JSNum.num t))
            (some (JSNum.num (t + 8 * 60 * 60 * 1000))) = some 8
        ∧ inferIntervalHours (some (JSNum.num t))
            (some (JSNum.num (t + 10 * 60 * 1000))) = none
        ∧ inferIntervalHours (some (JSNum.num t))
            (some (JSNum.num (t - 60 * 60 * 1000))) = none) := by
  refine ⟨?_, ?_, ?_⟩
  · intro p n hp hn hp0 hn0 h30 h24
    rw [hp, hn, inferIntervalHours_num, if_pos ⟨hp0, hn0, h30, h24⟩]
  · intro h
    obtain ⟨p, n, hp, hn⟩ := inferIntervalHours_ne_none h
    rw [hp, hn, inferIntervalHours_num] at h
    by_cases hc : p ≠ 0 ∧ n ≠ 0 ∧ 30 * 60 * 1000 ≤ n - p ∧ n - p ≤ 24 * 60 * 60 * 1000
    · exact ⟨p, n, hp, hn, hc.1, hc.2.1, hc.2.2.1, hc.2.2.2,
        by rw [hp, hn, inferIntervalHours_num, if_pos hc]⟩
    · rw [if_neg hc] at h
      exact absurd rfl h
  · intro t ht
    refine ⟨?_, ?_, ?_⟩
    · rw [inferIntervalHours_num,
        if_pos ⟨by linarith, by linarith, by linarith, by linarith⟩]
      norm_num
    · rw [inferIntervalHours_num, if_neg]
      rintro ⟨-, -, h30, -⟩
      linarith
    · rw [inferIntervalHours_num, if_neg]
      rintro ⟨-, -, h30, -⟩
      linarith

/-- Witness for C3 at `t = 1000`: an 8-hour step infers 8 hours. -/
theorem claim3_witness :
    inferIntervalHours (some (JSNum.num 1000))
      (some (JSNum.num (1000 + 8 * 60 * 60 * 1000))) = some 8 :=
  ((claim3_interval_inference none none).2.2 1000 (by norm_num)).1

/-- C4: base-to-quote conversion is `baseVol * price`, undefined iff either
input is non-finite; a mark-price update re-converts a stored base volume;
a volume update converts with the stored mark price, falling back to the
payload's last price when no finite mark price is stored; and base volume
56.78 at price 100 yields 5678. -/
theorem claim4_volume_conversion :
    (∀ bv px : Option JSNum,
        (convertOkxBaseVolToUsdt bv px = none ↔
          ¬ (jsFinite bv = true ∧ jsFinite px = true))
        ∧ ∀ b p : ℚ, bv = some (JSNum.num b) → px = some (JSNum.num p) →
            convertOkxBaseVolToUsdt bv px = some (JSNum.num (b * p)))
    ∧ (∀ (r : Row) (b p : ℚ), r.okxBaseVol24h = some (JSNum.num b) →
        (okxMarkRowUpdate (JSNum.num p) r).okxPrice = some (JSNum.num p)
        ∧ (okxMarkRowUpdate (JSNum.num p) r).okxVol24h = some (JSNum.num (b * p)))
    ∧ (∀ (r : Row) (i : Okx24hItem) (bv p : ℚ), i.volCcy24h = JSNum.num bv →
        r.okxPrice = some (JSNum.num p) →
        (okx24hUpd i r).okxBaseVol24h = some (JSNum.num bv)
        ∧ (okx24hUpd i r).okxVol24h = some (JSNum.num (bv * p)))
    ∧ (∀ (r : Row) (i : Okx24hItem) (bv l : ℚ), i.volCcy24h = JSNum.num bv →
        jsFinite r.okxPrice = false → i.last = JSNum.num l →
        (okx24hUpd i r).okxVol24h = some (JSNum.num (bv * l)))
    ∧ convertOkxBaseVolToUsdt (some (JSNum.num (5678 / 100))) (some (JSNum.num 100))
        = some (JSNum.num 5678) := by
  have hscn : convertOkxBaseVolToUsdt (some (JSNum.num (5678 / 100)))
      (some (JSNum.num 100)) = some (JSNum.num 5678) := by
    simp only [convertOkxBaseVolToUsdt]
    norm_num
  refine ⟨?_, ?_, ?_, ?_, hscn⟩
  · intro bv px
    constructor
    · rw [convertOkxBaseVolToUsdt_closed]
      cases hb : jsFinite bv <;> cases hp : jsFinite px <;> simp
    · intro b p hb hp
      rw [hb, hp]
      rfl
  · intro r b p hb
    constructor
    · simp [okxMarkRowUpdate, convertOkxBaseVolToUsdt, hb]
    · simp [okxMarkRowUpdate, convertOkxBaseVolToUsdt, hb]
  · intro r i bv p hv hp
    constructor
    · simp [okx24hUpd, okxPxChoice, hv, hp, jsFinite, convertOkxBaseVolToUsdt]
    · simp [okx24hUpd, okxPxChoice, hv, hp, jsFinite, convertOkxBaseVolToUsdt]
  · intro r i bv l hv hpf hl
    simp [okx24hUpd, okxPxChoice, hv, hl, hpf, jsFiniteN, convertOkxBaseVolToUsdt]

/-- Witness for C4: re-conversion on a mark-price update, and the 56.78 × 100
scenario through the 24h adapter with a stored mark price. -/
theorem claim4_witness :
    (okxMarkRowUpdate (JSNum.num 100) c4MarkRow).okxVol24h = some (JSNum.num (2 * 100))
    ∧ (okx24hUpd c4Item c4PriceRow).okxVol24h = some (JSNum.num (5678 / 100 * 100)) :=
  ⟨(claim4_volume_conversion.2.1 c4MarkRow 2 100 rfl).2,
   (claim4_volume_conversion.2.2.1 c4PriceRow c4Item (5678 / 100) 100 rfl rfl).2⟩

/-- C7 counterexample: the input `"_-USDT"` canonicalizes to `"_USDT"`, which
does not satisfy the USDT-quote pattern — the canonicalizer itself does not
enforce the `[A-Z0-9]+` part of the pattern. -/
theorem claim7_counterexample :
    okxInstIdToCanonical (some "_-USDT") = some "_USDT"
    ∧ isUsdtTicker "_USDT" = false :=
  ⟨by decide, by decide⟩

/-- C7 (amended): the canonicalizer is a total function that either rejects
the id (`none`) or returns `base ++ "USDT"` for a nonempty base segment;
malformed ids never throw.  The full USDT-quote pattern is only guaranteed
after the caller's separate `isUsdtTicker` filter. -/
theorem claim7_canonicalizer_shape (instId : Option String) :
    okxInstIdToCanonical instId = none
    ∨ ∃ base : List Char, base ≠ [] ∧
        okxInstIdToCanonical instId = some (String.mk (base ++ "USDT".data)) := by
  rcases instId with _ | s
  · left
    rfl
  · simp only [okxInstIdToCanonical]
    split
    · left
      rfl
    · split
      · left
        rfl
      · split
        · left
          rfl
        · split
          · left
            rfl
          · rename_i hcond
            right
            rw [Bool.or_eq_true, not_or] at hcond
            obtain ⟨hbase, hquote⟩ := hcond
            refine ⟨(charSplit '-' (s.data.map Char.toUpper)).headI, ?_, ?_⟩
            · intro hnil
              exact hbase (by rw [hnil]; rfl)
            · have hq : (charSplit '-' (s.data.map Char.toUpper)).tail.headI = "USDT".data := by
                by_contra hne
                exact hquote (by simpa using hne)
              rw [hq]

/-- C2: when both venue sets are non-empty, recomputing the universe prunes
exactly the records outside the intersection (records inside it persist
unchanged), sets the common universe to the intersection, and marks the
store dirty; when either set is empty, the store and dirty flag are left
untouched. -/
theorem claim2_universe_pruning (s : Engine) :
    (0 < s.bnSet.card → 0 < s.okxSet.card →
        (recomputeCommonUniverse s).dirty = true
        ∧ (recomputeCommonUniverse s).common = s.bnSet ∩ s.okxSet
        ∧ ∀ t : String,
            (recomputeCommonUniverse s).rows t =
              if t ∈ s.bnSet ∩ s.okxSet then s.rows t else none)
    ∧ (¬ (0 < s.bnSet.card ∧ 0 < s.okxSet.card) →
        (recomputeCommonUniverse s).rows = s.rows
        ∧ (recomputeCommonUniverse s).dirty = s.dirty) := by
  constructor
  · intro h1 h2
    unfold recomputeCommonUniverse
    rw [if_pos ⟨h1, h2⟩]
    exact ⟨rfl, rfl, fun t => rfl⟩
  · intro h
    unfold recomputeCommonUniverse
    rw [if_neg h]
    exact ⟨rfl, rfl⟩

/-- Witness for C2: with universes `{AUSDT, BUSDT}` and `{AUSDT}`, the record
for `BUSDT` is pruned, the one for `AUSDT` persists and the store is dirty;
with an empty OKX universe nothing is pruned. -/
theorem claim2_witness :
    (recomputeCommonUniverse c2Engine).rows "BUSDT" = none
    ∧ (recomputeCommonUniverse c2Engine).rows "AUSDT" = some (freshRow "AUSDT")
    ∧ (recomputeCommonUniverse c2Engine).dirty = true
    ∧ (recomputeCommonUniverse c2EngineEmpty).rows = c2EngineEmpty.rows := by
  have h1 := (claim2_universe_pruning c2Engine).1 (by decide) (by decide)
  have h2 := (claim2_universe_pruning c2EngineEmpty).2 (by decide)
  refine ⟨?_, ?_, h1.1, h2.1⟩
  · rw [h1.2.2 "BUSDT", if_neg (by decide)]
  · rw [h1.2.2 "AUSDT", if_pos (by decide)]
    decide

lemma bnOverrideStep_some {s : Engine} {ov : String → Option ℚ}
    {i : BnFundingInfoItem} {u : String} {g : ℚ}
    (h : bnOverrideStep s ov i u = some g) :
    ov u = some g ∨ bnFundingInfoPass s u = true := by
  simp only [bnOverrideStep] at h
  rcases hsym : i.symbol with _ | sym
  · simp only [hsym] at h
    exact Or.inl h
  · simp only [hsym] at h
    by_cases hemp : sym = ""
    · simp only [if_pos hemp] at h
      exact Or.inl h
    · simp only [if_neg hemp] at h
      rcases hhrs : i.fundingIntervalHours with _ | hval
      · simp only [hhrs] at h
        exact Or.inl h
      · simp only [hhrs] at h
        by_cases hpass : bnFundingInfoPass s (jsToUpper sym) = false
        · simp only [if_pos hpass] at h
          exact Or.inl h
        · simp only [if_neg hpass] at h
          cases hval with
          | num q =>
            by_cases hb : 0 < q ∧ q ≤ 24
            · simp only [if_pos hb] at h
              by_cases ht : u = jsToUpper sym
              · right
                rw [ht]
                rcases Bool.eq_false_or_eq_true (bnFundingInfoPass s (jsToUpper sym))
                  with hb2 | hb2
                · exact hb2
                · exact absurd hb2 hpass
              · simp only [if_neg ht] at h
                exact Or.inl h
            · simp only [if_neg hb] at h
              exact Or.inl h
          | nan => exact Or.inl h
          | posInf => exact Or.inl h
          | negInf => exact Or.inl h

lemma buildBnOverrides_pass {s : Engine} (p : List BnFundingInfoItem)
    (ov : String → Option ℚ)
    (hov : ∀ u g, ov u = some g → bnFundingInfoPass s u = true) :
    ∀ u g, (p.foldl (bnOverrideStep s) ov) u = some g → bnFundingInfoPass s u = true := by
  induction p generalizing ov with
  | nil => exact hov
  | cons i l ih =>
    intro u g hg
    refine ih (bnOverrideStep s ov i) ?_ u g hg
    intro u' g' hg'
    rcases bnOverrideStep_some hg' with h | h
    · exact hov u' g' h
    · exact h

/-- C5 counterexample: a refresh overrides ticker `"XUSDT"` from the default
8 to 1 hour; a later refresh with an empty payload no longer covers the
ticker, yet the stored interval stays at 1 hour (the stale override is
retained by `overrides.get(ticker) ?? row.bnIntervalHours ?? 8`), instead of
reverting to the default 8 or an inferred value. -/
theorem claim5_counterexample :
    ((fetchBinanceFundingInfo [c5Item] c5Engine).rows "XUSDT").map Row.bnIntervalHours
        = some (some (JSNum.num 1))
    ∧ buildBnOverrides (fetchBinanceFundingInfo [c5Item] c5Engine) [] "XUSDT" = none
    ∧ ((fetchBinanceFundingInfo [] (fetchBinanceFundingInfo [c5Item] c5Engine)).rows
          "XUSDT").map Row.bnIntervalHours = some (some (JSNum.num 1)) :=
  ⟨by decide, by decide, by decide⟩

/-- C5 (amended): the fresh override table replaces the previous one; for
every ticker it covers, the override value replaces the stored interval of
that ticker's record.  For a ticker no longer covered, the record retains
its current interval (possibly the stale previous override), falling back to
8 only when the current interval is `null`; rows failing the universe filter
are untouched. -/
theorem claim5_funding_override (s : Engine) (p : List BnFundingInfoItem) (t : String) :
    (fetchBinanceFundingInfo p s).bnOverrides = buildBnOverrides s p
    ∧ (∀ h : ℚ, buildBnOverrides s p t = some h → ∀ r : Row, s.rows t = some r →
        (fetchBinanceFundingInfo p s).rows t
          = some { r with bnIntervalHours := some (JSNum.num h) })
    ∧ (buildBnOverrides s p t = none → bnFundingInfoPass s t = true →
        ∀ r : Row, s.rows t = some r →
        (fetchBinanceFundingInfo p s).rows t
          = some { r with bnIntervalHours := some (r.bnIntervalHours.getD (JSNum.num 8)) })
    ∧ (bnFundingInfoPass s t = false → (fetchBinanceFundingInfo p s).rows t = s.rows t) := by
  refine ⟨rfl, ?_, ?_, ?_⟩
  · intro h hov r hr
    have hpass : bnFundingInfoPass s t = true :=
      buildBnOverrides_pass p (fun _ => none) (fun u g hg => Option.noConfusion hg) t h hov
    simp [fetchBinanceFundingInfo, hr, hpass, hov, bnIntervalChain]
  · intro hov hpass r hr
    simp [fetchBinanceFundingInfo, hr, hpass, hov, bnIntervalChain_none]
  · intro hpass
    cases hr : s.rows t with
    | none => simp [fetchBinanceFundingInfo, hr]
    | some r => simp [fetchBinanceFundingInfo, hr, hpass]

/-- Witness for C5: applying the override refresh to the concrete engine sets
the stored interval of `"XUSDT"` to 1 hour. -/
theorem claim5_witness :
    (fetchBinanceFundingInfo [c5Item] c5Engine).rows "XUSDT"
      = some { freshRow "XUSDT" with bnIntervalHours := some (JSNum.num 1) } :=
  (claim5_funding_override c5Engine [c5Item] "XUSDT").2.1 1 (by decide)
    (freshRow "XUSDT") (by decide)

lemma insertSorted_decomp {α : Type} (cmp : α → α → ℚ) (P : α → Bool)
    (hFN : ∀ a b, P a = true → P b = false → cmp a b ≤ 0)
    (hNF : ∀ a b, P a = false → P b = true → ¬ cmp a b ≤ 0)
    (hNN : ∀ a b, P a = false → P b = false → cmp a b ≤ 0)
    (x : α) (l1 l2 : List α)
    (h1 : ∀ y ∈ l1, P y = true) (h2 : ∀ y ∈ l2, P y = false) :
    ∃ m1 m2 : List α, insertSorted cmp x (l1 ++ l2) = m1 ++ m2
      ∧ (∀ y ∈ m1, P y = true) ∧ (∀ y ∈ m2, P y = false) := by
  by_cases hx : P x = true
  · induction l1 with
    | nil =>
      cases l2 with
      | nil =>
        refine ⟨[x], [], rfl, ?_, by simp⟩
        intro y hy
        rw [List.mem_singleton.mp hy]
        exact hx
      | cons z zs =>
        have hz : P z = false := h2 z (List.mem_cons_self z zs)
        have hc : cmp x z ≤ 0 := hFN x z hx hz
        refine ⟨[x], z :: zs, ?_, ?_, h2⟩
        · simp [insertSorted, hc]
        · intro y hy
          rw [List.mem_singleton.mp hy]
          exact hx
    | cons y ys ih =>
      have hy : P y = true := h1 y (List.mem_cons_self y ys)
      by_cases hc : cmp x y ≤ 0
      · refine ⟨x :: y :: ys, l2, ?_, ?_, h2⟩
        · simp [insertSorted, hc]
        · intro z hz
          rcases List.mem_cons.mp hz with hz1 | hz2
          · rw [hz1]; exact hx
          · exact h1 z hz2
      · obtain ⟨m1, m2, heq, hm1, hm2⟩ := ih (fun z hz => h1 z (List.mem_cons_of_mem _ hz))
        refine ⟨y :: m1, m2, ?_, ?_, hm2⟩
        · simp [insertSorted, hc, heq]
        · intro z hz
          rcases List.mem_cons.mp hz with hz1 | hz2
          · rw [hz1]; exact hy
          · exact hm1 z hz2
  · have hx' : P x = false := by
      cases hP : P x
      · rfl
      · exact absurd hP hx
    induction l1 with
    | nil =>
      cases l2 with
      | nil =>
        refine ⟨[], [x], rfl, by simp, ?_⟩
        intro y hy
        rw [List.mem_singleton.mp hy]
        exact hx'
      | cons z zs =>
        have hz : P z = false := h2 z (List.mem_cons_self z zs)
        have hc : cmp x z ≤ 0 := hNN x z hx' hz
        refine ⟨[], x :: z :: zs, ?_, by simp, ?_⟩
        · simp [insertSorted, hc]
        · intro y hy
          rcases List.mem_cons.mp hy with hy1 | hy2
          · rw [hy1]; exact hx'
          · exact h2 y hy2
    | cons y ys ih =>
      have hy : P y = true := h1 y (List.mem_cons_self y ys)
      have hc : ¬ cmp x y ≤ 0 := hNF x y hx' hy
      obtain ⟨m1, m2, heq, hm1, hm2⟩ := ih (fun z hz => h1 z (List.mem_cons_of_mem _ hz))
      refine ⟨y :: m1, m2, ?_, ?_, hm2⟩
      · simp [insertSorted, hc, heq]
      · intro z hz
        rcases List.mem_cons.mp hz with hz1 | hz2
        · rw [hz1]; exact hy
        · exact hm1 z hz2

lemma sortRows_decomp {α : Type} (cmp : α → α → ℚ) (P : α → Bool)
    (hFN : ∀ a b, P a = true → P b = false → cmp a b ≤ 0)
    (hNF : ∀ a b, P a = false → P b = true → ¬ cmp a b ≤ 0)
    (hNN : ∀ a b, P a = false → P b = false → cmp a b ≤ 0)
    (l : List α) :
    ∃ m1 m2 : List α, sortRows cmp l = m1 ++ m2
      ∧ (∀ y ∈ m1, P y = true) ∧ (∀ y ∈ m2, P y = false) := by
  induction l with
  | nil => exact ⟨[], [], rfl, by simp, by simp⟩
  | cons x l ih =>
    obtain ⟨m1, m2, heq, hm1, hm2⟩ := ih
    obtain ⟨n1, n2, hneq, hn1, hn2⟩ := insertSorted_decomp cmp P hFN hNF hNN x m1 m2 hm1 hm2
    refine ⟨n1, n2, ?_, hn1, hn2⟩
    show insertSorted cmp x (sortRows cmp l) = n1 ++ n2
    rw [heq]
    exact hneq

/-- C6: for every sort key and both directions, the snapshot comparator ranks
every record with a finite value before every record with a missing or
non-finite value (so the missing ones sort last regardless of direction);
two finite values compare by their difference times the direction
multiplier; consequently the sorted snapshot splits into the finite-valued
records followed by the non-finite-valued ones. -/
theorem claim6_sort_missing_last (key : SortKey) (dir : SortDir) :
    (∀ a b : Row, jsFinite (sortValue key a) = true → jsFinite (sortValue key b) = false →
        rowCmp key dir a b < 0 ∧ 0 < rowCmp key dir b a)
    ∧ (∀ (a b : Row) (va vb : ℚ), sortValue key a = some (JSNum.num va) →
        sortValue key b = some (JSNum.num vb) →
        rowCmp key dir a b = (va - vb) * dirMulOf dir)
    ∧ (∀ l : List Row, ∃ m1 m2 : List Row,
        sortRows (rowCmp key dir) l = m1 ++ m2
        ∧ (∀ r ∈ m1, jsFinite (sortValue key r) = true)
        ∧ (∀ r ∈ m2, jsFinite (sortValue key r) = false)) := by
  have hmixed : ∀ a b : Row, jsFinite (sortValue key a) = true →
      jsFinite (sortValue key b) = false →
      rowCmp key dir a b < 0 ∧ 0 < rowCmp key dir b a := by
    intro a b ha hb
    constructor
    · rw [rowCmp, cmpNullableNumber_closed, ha, hb]
      norm_num
    · rw [rowCmp, cmpNullableNumber_closed, ha, hb]
      norm_num
  refine ⟨hmixed, ?_, ?_⟩
  · intro a b va vb ha hb
    rw [rowCmp, ha, hb]
    rfl
  · intro l
    refine sortRows_decomp (rowCmp key dir) (fun r => jsFinite (sortValue key r))
      ?_ ?_ ?_ l
    · intro a b ha hb
      exact le_of_lt (hmixed a b ha hb).1
    · intro a b ha hb
      exact not_le_of_lt (hmixed b a hb ha).2
    · intro a b ha hb
      simp only [] at ha hb
      rw [rowCmp, cmpNullableNumber_closed, ha, hb]
      norm_num

/-- Witness for C6 at concrete records: a finite Binance price sorts before a
`NaN` one in ascending order (and the reverse comparison is positive), and
two finite prices compare by their difference times the direction. -/
theorem claim6_witness :
    rowCmp SortKey.bnPrice SortDir.asc c6FinRow c6NanRow < 0
    ∧ 0 < rowCmp SortKey.bnPrice SortDir.asc c6NanRow c6FinRow
    ∧ rowCmp SortKey.bnPrice SortDir.desc c6FinRow c6Row2 = ((1 : ℚ) - 2) * (-1) :=
  ⟨((claim6_sort_missing_last SortKey.bnPrice SortDir.asc).1 c6FinRow c6NanRow rfl rfl).1,
   ((claim6_sort_missing_last SortKey.bnPrice SortDir.asc).1 c6FinRow c6NanRow rfl rfl).2,
   (claim6_sort_missing_last SortKey.bnPrice SortDir.desc).2.1 c6FinRow c6Row2 1 2 rfl rfl⟩

/-- C8 counterexample: with a consistent exact pair 48 hours apart
(`fundingTime = 0`, `nextFundingTime = 172800000`) the exact difference is
48 hours, but the implementation leaves the previously stored 8-hour
interval untouched because the exact branch only stores intervals in
`(0, 24]` hours — the interval is not "set from their exact difference". -/
theorem claim8_counterexample :
    (okxFundingRowUpdate (JSNum.num 0) (some (JSNum.num 0)) (some (JSNum.num 172800000))
        c8Row).okxIntervalHours = some (JSNum.num 8)
    ∧ ((172800000 : ℚ) - 0) / (60 * 60 * 1000) = 48
    ∧ (okxFundingRowUpdate (JSNum.num 0) (some (JSNum.num 0)) (some (JSNum.num 172800000))
        c8Row).okxIntervalHours ≠ some (JSNum.num 48) := by
  have h1 : (okxFundingRowUpdate (JSNum.num 0) (some (JSNum.num 0))
      (some (JSNum.num 172800000)) c8Row).okxIntervalHours = some (JSNum.num 8) := by
    simp only [okxFundingRowUpdate]
    rw [if_pos (by norm_num : (0 : ℚ) < 172800000)]
    rw [if_neg (by rintro ⟨-, h24⟩; norm_num at h24)]
    rfl
  refine ⟨h1, by norm_num, ?_⟩
  rw [h1]
  intro h
  have := Option.some.inj h
  have h8 : (8 : ℚ) = 48 := by injection this
  norm_num at h8

/-- C8 (amended): when the payload carries a finite, consistent exact pair
(`next > settlement`), the next-settlement timestamp is stored and the
interval is set to the exact difference provided it is at most 24 hours
(otherwise the interval is left unchanged), with delta-inference bypassed;
delta-inference against the previously stored timestamp is used exactly when
the pair is absent or inconsistent but the next timestamp is finite; when
the next timestamp is non-finite neither field changes. -/
theorem claim8_exact_interval (frN : JSNum) (ft nt : Option JSNum) (r : Row) :
    (∀ a b : ℚ, ft = some (JSNum.num a) → nt = some (JSNum.num b) → a < b →
        (okxFundingRowUpdate frN ft nt r).okxNextFundingTime = some (JSNum.num b)
        ∧ (okxFundingRowUpdate frN ft nt r).okxIntervalHours =
            (if (b - a) / (60 * 60 * 1000) ≤ 24 then
              some (JSNum.num ((b - a) / (60 * 60 * 1000)))
            else r.okxIntervalHours))
    ∧ (∀ b : ℚ, nt = some (JSNum.num b) → (¬ ∃ a : ℚ, ft = some (JSNum.num a) ∧ a < b) →
        (okxFundingRowUpdate frN ft nt r).okxIntervalHours =
          (match inferIntervalHours r.okxNextFundingTime nt with
           | some h => some (JSNum.num h)
           | none => r.okxIntervalHours)
        ∧ (okxFundingRowUpdate frN ft nt r).okxNextFundingTime = some (JSNum.num b))
    ∧ (jsFinite nt = false →
        (okxFundingRowUpdate frN ft nt r).okxIntervalHours = r.okxIntervalHours
        ∧ (okxFundingRowUpdate frN ft nt r).okxNextFundingTime = r.okxNextFundingTime) := by
  refine ⟨?_, ?_, ?_⟩
  · intro a b ha hb hab
    subst ha
    subst hb
    simp only [okxFundingRowUpdate]
    rw [if_pos hab]
    by_cases h24 : (b - a) / (60 * 60 * 1000) ≤ 24
    · rw [if_pos ⟨div_pos (by linarith) (by norm_num), h24⟩, if_pos h24]
      exact ⟨rfl, rfl⟩
    · rw [if_neg (by rintro ⟨-, hh⟩; exact h24 hh), if_neg h24]
      exact ⟨rfl, rfl⟩
  · intro b hb hne
    subst hb
    have hgoal : okxFundingRowUpdate frN ft (some (JSNum.num b)) r =
        okxInferApply b { r with okxFunding := some frN } := by
      rcases ft with _ | fv
      · rfl
      · cases fv with
        | num a =>
          have hab : ¬ a < b := fun hlt => hne ⟨a, rfl, hlt⟩
          simp only [okxFundingRowUpdate]
          rw [if_neg hab]
        | nan => rfl
        | posInf => rfl
        | negInf => rfl
    rw [hgoal]
    rcases hinf : inferIntervalHours r.okxNextFundingTime (some (JSNum.num b)) with _ | h
    · simp [okxInferApply, hinf]
    · simp [okxInferApply, hinf]
  · intro hnf
    rcases nt with _ | nv
    · rcases ft with _ | fv
      · exact ⟨rfl, rfl⟩
      · cases fv <;> exact ⟨rfl, rfl⟩
    · cases nv with
      | num b => simp [jsFinite] at hnf
      | nan =>
        rcases ft with _ | fv
        · exact ⟨rfl, rfl⟩
        · cases fv <;> exact ⟨rfl, rfl⟩
      | posInf =>
        rcases ft with _ | fv
        · exact ⟨rfl, rfl⟩
        · cases fv <;> exact ⟨rfl, rfl⟩
      | negInf =>
        rcases ft with _ | fv
        · exact ⟨rfl, rfl⟩
        · cases fv <;> exact ⟨rfl, rfl⟩

/-- Witness for C8 at a consistent 8-hour exact pair. -/
theorem claim8_witness :
    (okxFundingRowUpdate (JSNum.num 0) (some (JSNum.num 0)) (some (JSNum.num 28800000))
        c8Row).okxNextFundingTime = some (JSNum.num 28800000)
    ∧ (okxFundingRowUpdate (JSNum.num 0) (some (JSNum.num 0)) (some (JSNum.num 28800000))
        c8Row).okxIntervalHours =
        (if ((28800000 : ℚ) - 0) / (60 * 60 * 1000) ≤ 24 then
          some (JSNum.num (((28800000 : ℚ) - 0) / (60 * 60 * 1000)))
        else c8Row.okxIntervalHours) :=
  (claim8_exact_interval (JSNum.num 0) (some (JSNum.num 0)) (some (JSNum.num 28800000))
    c8Row).1 0 28800000 rfl rfl (by norm_num)

lemma effAt_skip {ι : Type} {keyOf : ι → Option String} (upd : ι → Row → Row)
    {t : String} {i : ι} (hk : keyOf i ≠ some t) (or : Option Row) :
    effAt keyOf upd t or i = or := by
  unfold effAt
  rcases hki : keyOf i with _ | u
  · rfl
  · simp only []
    rw [if_neg]
    intro hu
    exact hk (by rw [hki, hu])

lemma effAt_hit {ι : Type} {keyOf : ι → Option String} (upd : ι → Row → Row)
    {t : String} {i : ι} (hk : keyOf i = some t) (or : Option Row) :
    effAt keyOf upd t or i = some (upd i (or.getD (freshRow t))) := by
  unfold effAt
  rw [hk]
  simp

lemma stepFeed_apply {ι : Type} (keyOf : ι → Option String) (upd : ι → Row → Row)
    (m : StoreMap) (i : ι) (t : String) :
    stepFeed keyOf upd m i t = effAt keyOf upd t (m t) i := by
  unfold stepFeed effAt
  rcases hki : keyOf i with _ | u
  · rfl
  · simp only [storeSet]
    by_cases h : t = u
    · subst h
      rfl
    · rw [if_neg h, if_neg (fun hh => h hh.symm)]

lemma runFeed_apply {ι : Type} (keyOf : ι → Option String) (upd : ι → Row → Row)
    (p : List ι) (m : StoreMap) (t : String) :
    runFeed keyOf upd p m t = p.foldl (effAt keyOf upd t) (m t) := by
  induction p generalizing m with
  | nil => rfl
  | cons i l ih =>
    show runFeed keyOf upd l (stepFeed keyOf upd m i) t = _
    rw [ih, List.foldl_cons, stepFeed_apply]

lemma touchers_cons_hit {ι : Type} {keyOf : ι → Option String} {t : String} {i : ι}
    (hk : keyOf i = some t) (l : List ι) :
    touchers keyOf t (i :: l) = i :: touchers keyOf t l := by
  simp [touchers, List.filter_cons, hk]

lemma touchers_cons_skip {ι : Type} {keyOf : ι → Option String} {t : String} {i : ι}
    (hk : keyOf i ≠ some t) (l : List ι) :
    touchers keyOf t (i :: l) = touchers keyOf t l := by
  simp [touchers, List.filter_cons, hk]

lemma foldl_effAt_some {ι : Type} (keyOf : ι → Option String) (upd : ι → Row → Row)
    (t : String) (p : List ι) (r : Row) :
    p.foldl (effAt keyOf upd t) (some r) = some (applyRowList upd (touchers keyOf t p) r) := by
  induction p generalizing r with
  | nil => rfl
  | cons i l ih =>
    by_cases hk : keyOf i = some t
    · rw [List.foldl_cons, effAt_hit upd hk, Option.getD_some, ih,
        touchers_cons_hit hk]
      rfl
    · rw [List.foldl_cons, effAt_skip upd hk, ih, touchers_cons_skip hk]

lemma foldl_effAt_untouched {ι : Type} (keyOf : ι → Option String) (upd : ι → Row → Row)
    (t : String) (p : List ι) (h : touchers keyOf t p = []) (or : Option Row) :
    p.foldl (effAt keyOf upd t) or = or := by
  induction p with
  | nil => rfl
  | cons i l ih =>
    by_cases hk : keyOf i = some t
    · rw [touchers_cons_hit hk] at h
      exact absurd h (List.cons_ne_nil i _)
    · rw [touchers_cons_skip hk] at h
      rw [List.foldl_cons, effAt_skip upd hk, ih h]

lemma foldl_effAt_touched {ι : Type} (keyOf : ι → Option String) (upd : ι → Row → Row)
    (t : String) (p : List ι) (h : touchers keyOf t p ≠ []) (or : Option Row) :
    p.foldl (effAt keyOf upd t) or
      = some (applyRowList upd (touchers keyOf t p) (or.getD (freshRow t))) := by
  induction p generalizing or with
  | nil => exact absurd rfl h
  | cons i l ih =>
    by_cases hk : keyOf i = some t
    · rw [List.foldl_cons, effAt_hit upd hk, foldl_effAt_some, touchers_cons_hit hk]
      rfl
    · rw [List.foldl_cons, effAt_skip upd hk, touchers_cons_skip hk]
      rw [touchers_cons_skip hk] at h
      exact ih h or

lemma runFeed_idem {ι : Type} (keyOf : ι → Option String) (upd : ι → Row → Row)
    (p : List ι)
    (hU : ∀ (t : String) (r : Row),
        applyRowList upd (touchers keyOf t p) (applyRowList upd (touchers keyOf t p) r)
          = applyRowList upd (touchers keyOf t p) r)
    (m : StoreMap) :
    runFeed keyOf upd p (runFeed keyOf upd p m) = runFeed keyOf upd p m := by
  funext t
  rw [runFeed_apply, runFeed_apply]
  rcases htop : touchers keyOf t p with _ | ⟨i, js⟩
  · rw [foldl_effAt_untouched keyOf upd t p htop]
  · have hne : touchers keyOf t p ≠ [] := by
      rw [htop]
      exact List.cons_ne_nil i js
    rw [foldl_effAt_touched keyOf upd t p hne (m t),
        foldl_effAt_touched keyOf upd t p hne, Option.getD_some, hU]

lemma foldl_const_or_id {α ι : Type} (f : α → ι → α)
    (hf : ∀ i, (∀ x y, f x i = f y i) ∨ ∀ x, f x i = x) (l : List ι) :
    (∀ x y, l.foldl f x = l.foldl f y) ∨ ∀ x, l.foldl f x = x := by
  induction l with
  | nil =>
    right
    intro x
    rfl
  | cons i l ih =>
    rcases hf i with hc | hid
    · left
      intro x y
      rw [List.foldl_cons, List.foldl_cons, hc x y]
    · rcases ih with hc2 | hid2
      · left
        intro x y
        rw [List.foldl_cons, List.foldl_cons]
        exact hc2 _ _
      · right
        intro x
        rw [List.foldl_cons, hid x]
        exact hid2 x

lemma foldl_coi_idem {α ι : Type} (f : α → ι → α)
    (hf : ∀ i, (∀ x y, f x i = f y i) ∨ ∀ x, f x i = x) (l : List ι) (x : α) :
    l.foldl f (l.foldl f x) = l.foldl f x := by
  rcases foldl_const_or_id f hf l with hc | hid
  · exact hc _ _
  · rw [hid, hid]

lemma bn24h_applyList (l : List Bn24hItem) (r : Row) :
    applyRowList bn24hUpd l r
      = { r with bnVol24h := l.foldl (fun x i => bnVolStep i x) r.bnVol24h } := by
  induction l generalizing r with
  | nil => rfl
  | cons i l ih =>
    show applyRowList bn24hUpd l (bn24hUpd i r) = _
    rw [ih]
    rfl

lemma bnVolStep_coi (i : Bn24hItem) :
    (∀ x y, bnVolStep i x = bnVolStep i y) ∨ ∀ x, bnVolStep i x = x := by
  by_cases h : jsFiniteN (bn24hVol i) = true
  · left
    intro x y
    simp [bnVolStep, h]
  · right
    intro x
    simp [bnVolStep, h]

lemma bn24h_applyList_idem (l : List Bn24hItem) (r : Row) :
    applyRowList bn24hUpd l (applyRowList bn24hUpd l r) = applyRowList bn24hUpd l r := by
  rw [bn24h_applyList, bn24h_applyList]
  simp only []
  rw [foldl_coi_idem (fun x i => bnVolStep i x) bnVolStep_coi]

lemma okx24hUpd_eq (i : Okx24hItem) (r : Row) :
    okx24hUpd i r = { r with okxBaseVol24h := okxBaseStep i r.okxBaseVol24h,
                             okxVol24h := okxVolStep r.okxPrice i r.okxVol24h } := by
  rcases hv : i.volCcy24h with _ | _ | _ | bv
  · simp [okx24hUpd, okxBaseStep, okxVolStep, hv]
  · simp [okx24hUpd, okxBaseStep, okxVolStep, hv]
  · simp [okx24hUpd, okxBaseStep, okxVolStep, hv]
  · rcases hc : convertOkxBaseVolToUsdt (some (JSNum.num bv)) (okxPxChoice r.okxPrice i)
      with _ | w
    · simp only [okx24hUpd, okxBaseStep, okxVolStep, hv, hc]
    · simp only [okx24hUpd, okxBaseStep, okxVolStep, hv, hc]

lemma okx24h_applyList (l : List Okx24hItem) (r : Row) :
    applyRowList okx24hUpd l r
      = { r with okxBaseVol24h := l.foldl (fun x i => okxBaseStep i x) r.okxBaseVol24h,
                 okxVol24h := l.foldl (fun v i => okxVolStep r.okxPrice i v) r.okxVol24h } := by
  induction l generalizing r with
  | nil => rfl
  | cons i l ih =>
    show applyRowList okx24hUpd l (okx24hUpd i r) = _
    rw [ih, okx24hUpd_eq]
    rfl

lemma okxBaseStep_coi (i : Okx24hItem) :
    (∀ x y, okxBaseStep i x = okxBaseStep i y) ∨ ∀ x, okxBaseStep i x = x := by
  rcases hv : i.volCcy24h with _ | _ | _ | bv
  · right
    intro x
    simp [okxBaseStep, hv]
  · right
    intro x
    simp [okxBaseStep, hv]
  · right
    intro x
    simp [okxBaseStep, hv]
  · left
    intro x y
    simp [okxBaseStep, hv]

lemma okxVolStep_coi (p : Option JSNum) (i : Okx24hItem) :
    (∀ x y, okxVolStep p i x = okxVolStep p i y) ∨ ∀ x, okxVolStep p i x = x := by
  rcases hv : i.volCcy24h with _ | _ | _ | bv
  · right
    intro x
    simp [okxVolStep, hv]
  · right
    intro x
    simp [okxVolStep, hv]
  · right
    intro x
    simp [okxVolStep, hv]
  · rcases hc : convertOkxBaseVolToUsdt (some (JSNum.num bv)) (okxPxChoice p i) with _ | w
    · right
      intro x
      simp [okxVolStep, hv, hc]
    · left
      intro x y
      simp [okxVolStep, hv, hc]

lemma okx24h_applyList_idem (l : List Okx24hItem) (r : Row) :
    applyRowList okx24hUpd l (applyRowList okx24hUpd l r) = applyRowList okx24hUpd l r := by
  rw [okx24h_applyList, okx24h_applyList]
  simp only []
  rw [foldl_coi_idem (fun x i => okxBaseStep i x) okxBaseStep_coi,
      foldl_coi_idem (fun v i => okxVolStep r.okxPrice i v) (okxVolStep_coi r.okxPrice)]

lemma inferIntervalHours_self (b : ℚ) :
    inferIntervalHours (some (JSNum.num b)) (some (JSNum.num b)) = none := by
  rw [inferIntervalHours_num, if_neg]
  rintro ⟨-, -, h30, -⟩
  rw [sub_self] at h30
  norm_num at h30

lemma okxInferApply_funding_idem (fr : JSNum) (b : ℚ) (r : Row) :
    okxInferApply b
        { (okxInferApply b { r with okxFunding := some fr }) with okxFunding := some fr }
      = okxInferApply b { r with okxFunding := some fr } := by
  rcases hinf : inferIntervalHours r.okxNextFundingTime (some (JSNum.num b)) with _ | h
  · simp only [okxInferApply, hinf, inferIntervalHours_self]
  · simp only [okxInferApply, hinf, inferIntervalHours_self]

lemma okxFundingRowUpdate_exact_hit (fr : JSNum) (a b : ℚ) (hab : a < b)
    (hc : 0 < (b - a) / (60 * 60 * 1000) ∧ (b - a) / (60 * 60 * 1000) ≤ 24) (r : Row) :
    okxFundingRowUpdate fr (some (JSNum.num a)) (some (JSNum.num b)) r =
      { r with okxFunding := some fr,
               okxNextFundingTime := some (JSNum.num b),
               okxIntervalHours := some (JSNum.num ((b - a) / (60 * 60 * 1000))) } := by
  simp only [okxFundingRowUpdate]
  rw [if_pos hab, if_pos hc]

lemma okxFundingRowUpdate_exact_miss (fr : JSNum) (a b : ℚ) (hab : a < b)
    (hc : ¬ (0 < (b - a) / (60 * 60 * 1000) ∧ (b - a) / (60 * 60 * 1000) ≤ 24)) (r : Row) :
    okxFundingRowUpdate fr (some (JSNum.num a)) (some (JSNum.num b)) r =
      { r with okxFunding := some fr,
               okxNextFundingTime := some (JSNum.num b) } := by
  simp only [okxFundingRowUpdate]
  rw [if_pos hab, if_neg hc]

lemma okxFundingRowUpdate_idem (fr : JSNum) (ft nt : Option JSNum) (r : Row) :
    okxFundingRowUpdate fr ft nt (okxFundingRowUpdate fr ft nt r)
      = okxFundingRowUpdate fr ft nt r := by
  rcases nt with _ | nv
  · rcases ft with _ | fv
    · rfl
    · cases fv <;> rfl
  · cases nv with
    | num b =>
      rcases ft with _ | fv
      · exact okxInferApply_funding_idem fr b r
      · cases fv with
        | num a =>
          by_cases hab : a < b
          · by_cases hc : 0 < (b - a) / (60 * 60 * 1000) ∧ (b - a) / (60 * 60 * 1000) ≤ 24
            · rw [okxFundingRowUpdate_exact_hit fr a b hab hc,
                  okxFundingRowUpdate_exact_hit fr a b hab hc]
            · rw [okxFundingRowUpdate_exact_miss fr a b hab hc,
                  okxFundingRowUpdate_exact_miss fr a b hab hc]
          · have hu : ∀ x : Row,
                okxFundingRowUpdate fr (some (JSNum.num a)) (some (JSNum.num b)) x
                  = okxInferApply b { x with okxFunding := some fr } := by
              intro x
              simp only [okxFundingRowUpdate]
              rw [if_neg hab]
            rw [hu, hu]
            exact okxInferApply_funding_idem fr b r
        | nan => exact okxInferApply_funding_idem fr b r
        | posInf => exact okxInferApply_funding_idem fr b r
        | negInf => exact okxInferApply_funding_idem fr b r
    | nan =>
      rcases ft with _ | fv
      · rfl
      · cases fv <;> rfl
    | posInf =>
      rcases ft with _ | fv
      · rfl
      · cases fv <;> rfl
    | negInf =>
      rcases ft with _ | fv
      · rfl
      · cases fv <;> rfl

lemma c9_hk1 : okxFundingKey [] ∅ ∅ c9Item1 = some "BTCUSDT" := by decide

lemma c9_hk2 : okxFundingKey [] ∅ ∅ c9Item2 = some "BTCUSDT" := by decide

lemma c9_infer_neg :
    inferIntervalHours (some (JSNum.num 57600000)) (some (JSNum.num 28800000)) = none := by
  rw [inferIntervalHours_num, if_neg]
  rintro ⟨-, -, h30, -⟩
  norm_num at h30

lemma c9_infer_pos :
    inferIntervalHours (some (JSNum.num 28800000)) (some (JSNum.num 57600000)) = some 8 := by
  rw [inferIntervalHours_num,
    if_pos ⟨by norm_num, by norm_num, by norm_num, by norm_num⟩]
  norm_num

lemma c9_u1_fresh : okxFundingUpd c9Item1 (freshRow "BTCUSDT")
    = { freshRow "BTCUSDT" with okxFunding := some (JSNum.num 0),
                                okxNextFundingTime := some (JSNum.num 57600000) } := rfl

lemma c9_u2 : okxFundingUpd c9Item2
    { freshRow "BTCUSDT" with okxFunding := some (JSNum.num 0),
                              okxNextFundingTime := some (JSNum.num 57600000) } = c9RowB := by
  simp [okxFundingUpd, okxFundingRowUpdate, okxInferApply, c9Item2, c9_infer_neg,
    c9RowB, freshRow]

lemma c9_u3 : okxFundingUpd c9Item1 c9RowB = c9RowC := by
  simp [okxFundingUpd, okxFundingRowUpdate, okxInferApply, c9Item1, c9_infer_pos,
    c9RowB, c9RowC, freshRow]

lemma c9_u4 : okxFundingUpd c9Item2 c9RowC = c9RowD := by
  simp [okxFundingUpd, okxFundingRowUpdate, okxInferApply, c9Item2, c9_infer_neg,
    c9RowC, c9RowD, freshRow]

lemma c9_once :
    runFeed (okxFundingKey [] ∅ ∅) okxFundingUpd [c9Item1, c9Item2] c9Store "BTCUSDT"
      = some c9RowB := by
  rw [runFeed_apply, List.foldl_cons, List.foldl_cons, List.foldl_nil,
      effAt_hit okxFundingUpd c9_hk1, effAt_hit okxFundingUpd c9_hk2, Option.getD_some]
  simp only [c9Store, Option.getD_none]
  rw [c9_u1_fresh, c9_u2]

lemma c9_twice :
    runFeed (okxFundingKey [] ∅ ∅) okxFundingUpd [c9Item1, c9Item2]
      (runFeed (okxFundingKey [] ∅ ∅) okxFundingUpd [c9Item1, c9Item2] c9Store) "BTCUSDT"
      = some c9RowD := by
  rw [runFeed_apply, c9_once, List.foldl_cons, List.foldl_cons, List.foldl_nil,
      effAt_hit okxFundingUpd c9_hk1, effAt_hit okxFundingUpd c9_hk2,
      Option.getD_some, Option.getD_some]
  rw [c9_u3, c9_u4]

/-- C9 counterexample: the funding payload with two items for the same
canonical ticker (`"BTC-USDT"` and `"BTC-USDT-SWAP"`, next-settlement
timestamps 16h and 8h) is not idempotent: after one ingestion the interval
is still unknown, after ingesting the same payload again the first item sees
the second item's stored timestamp and spuriously infers an 8-hour
interval — an observable (non-timestamp) field of the store changes. -/
theorem claim9_counterexample :
    Option.map Row.okxIntervalHours
        (fetchOkxFunding [] ∅ ∅ [c9Item1, c9Item2] c9Store "BTCUSDT") = some none
    ∧ Option.map Row.okxIntervalHours
        (fetchOkxFunding [] ∅ ∅ [c9Item1, c9Item2]
          (fetchOkxFunding [] ∅ ∅ [c9Item1, c9Item2] c9Store) "BTCUSDT")
      = some (some (JSNum.num 8)) := by
  constructor
  · show Option.map Row.okxIntervalHours
        (runFeed (okxFundingKey [] ∅ ∅) okxFundingUpd [c9Item1, c9Item2] c9Store
          "BTCUSDT") = some none
    rw [c9_once]
    simp [c9RowB, freshRow]
  · show Option.map Row.okxIntervalHours
        (runFeed (okxFundingKey [] ∅ ∅) okxFundingUpd [c9Item1, c9Item2]
          (runFeed (okxFundingKey [] ∅ ∅) okxFundingUpd [c9Item1, c9Item2] c9Store)
          "BTCUSDT") = some (some (JSNum.num 8))
    rw [c9_twice]
    simp [c9RowD, freshRow]

/-- C9 (amended): ingesting the same poll payload twice leaves the Instrument
Store unchanged for the Binance 24h poll and the OKX 24h poll on every
payload, and for the OKX funding poll on every payload in which each
canonical ticker is targeted by at most one item (which real payloads, keyed
by instrument, satisfy); a funding payload with two items for one ticker can
change the inferred interval on re-application. -/
theorem claim9_idempotence :
    (∀ (bnSet common : Finset String) (p : List Bn24hItem) (m : StoreMap),
        fetchBinance24h bnSet common p (fetchBinance24h bnSet common p m)
          = fetchBinance24h bnSet common p m)
    ∧ (∀ (okxMap : List (String × String)) (okxSet common : Finset String)
          (p : List Okx24hItem) (m : StoreMap),
        fetchOkx24h okxMap okxSet common p (fetchOkx24h okxMap okxSet common p m)
          = fetchOkx24h okxMap okxSet common p m)
    ∧ (∀ (okxMap : List (String × String)) (okxSet common : Finset String)
          (p : List OkxFundingItem) (m : StoreMap),
        (∀ t : String, (touchers (okxFundingKey okxMap okxSet common) t p).length ≤ 1) →
        fetchOkxFunding okxMap okxSet common p (fetchOkxFunding okxMap okxSet common p m)
          = fetchOkxFunding okxMap okxSet common p m) := by
  refine ⟨?_, ?_, ?_⟩
  · intro bnSet common p m
    exact runFeed_idem _ _ p (fun t r => bn24h_applyList_idem _ r) m
  · intro okxMap okxSet common p m
    exact runFeed_idem _ _ p (fun t r => okx24h_applyList_idem _ r) m
  · intro okxMap okxSet common p m hdist
    refine runFeed_idem _ _ p ?_ m
    intro t r
    have hlen := hdist t
    rcases htou : touchers (okxFundingKey okxMap okxSet common) t p with _ | ⟨i, js⟩
    · rfl
    · rw [htou] at hlen
      have hjs : js = [] := by
        rw [List.length_cons] at hlen
        exact List.eq_nil_of_length_eq_zero (by omega)
      subst hjs
      show okxFundingUpd i (okxFundingUpd i r) = okxFundingUpd i r
      exact okxFundingRowUpdate_idem _ _ _ _

/-- Witness for C9: concrete single-item payloads satisfy the idempotence
theorem (the distinctness hypothesis is discharged by the payload length). -/
theorem claim9_witness :
    fetchOkxFunding [] ∅ ∅ [c9Item1] (fetchOkxFunding [] ∅ ∅ [c9Item1] c9Store)
        = fetchOkxFunding [] ∅ ∅ [c9Item1] c9Store
    ∧ fetchBinance24h ∅ ∅ [c9Bn24hItem] (fetchBinance24h ∅ ∅ [c9Bn24hItem] c9Store)
        = fetchBinance24h ∅ ∅ [c9Bn24hItem] c9Store
    ∧ fetchOkx24h [] ∅ ∅ [c9Okx24hItem] (fetchOkx24h [] ∅ ∅ [c9Okx24hItem] c9Store)
        = fetchOkx24h [] ∅ ∅ [c9Okx24hItem] c9Store :=
  ⟨claim9_idempotence.2.2 [] ∅ ∅ [c9Item1] c9Store
      (fun t => le_trans (List.length_filter_le _ _) (by norm_num)),
   claim9_idempotence.1 ∅ ∅ [c9Bn24hItem] c9Store,
   claim9_idempotence.2.1 [] ∅ ∅ [c9Okx24hItem] c9Store⟩
